import Mathlib

/-!
Verification of the combined-orderbooks core (`combinedBooks`): a shallow
embedding of the order-book data model, the venue-fee catalog, the WAP
traversal engine and the pair synthesizer, together with theorems checking
the specified properties against the embedded code.

Modelling conventions:
* Python strings are modelled as lists of characters (`Str`); `sub in s` is
  substring containment, `s.split(c)` is `splitOnChar`.
* Machine floats are modelled as rationals; Python `round(x, n)` is decimal
  rounding half-to-even (`roundTo`).
* Fallible code (KeyError / ValueError / ZeroDivisionError) is modelled with
  `Except` / `Option`.
* `list(set(xs))` has unspecified order in Python; it is modelled as
  first-occurrence deduplication (`dedupFirst`).
-/

abbrev Str := List Char

/-- Python `needle in hay` (substring containment). -/
def subStr (needle hay : Str) : Bool :=
  hay.tails.any (fun t => needle.isPrefixOf t)

/-- Python `s.split(c)` for a one-character separator. -/
def splitOnChar (c : Char) : Str → List Str
  | [] => [[]]
  | a :: rest =>
    if a = c then [] :: splitOnChar c rest
    else
      match splitOnChar c rest with
      | [] => [[a]]
      | s :: ss => (a :: s) :: ss

def splitDash (s : Str) : List Str := splitOnChar '-' s

def splitUnder (s : Str) : List Str := splitOnChar '_' s

/-- Python `sep.join(parts)`. -/
def joinWith (sep : Str) (parts : List Str) : Str := List.intercalate sep parts

/-- Python `list(set(xs))`, modelled with first-occurrence order. -/
def dedupFirst (l : List Str) : List Str :=
  l.foldl (fun acc x => if x ∈ acc then acc else acc ++ [x]) []

def sAsks : Str := "asks".toList
def sBids : Str := "bids".toList
def sBuy : Str := "BUY".toList
def sSell : Str := "SELL".toList
def sBinance : Str := "binance".toList
def sOkx : Str := "okx".toList
def sCoinbase : Str := "coinbase".toList
def sJoined : Str := "_joined".toList
def sJnd : Str := "_jnd".toList

/-! ## Venue catalog (`exchangesData.py`, default construction:
`EXCHANGES = ["binance", "okx", "coinbase"]`) -/

def VALID_QUOTES : List Str :=
  (["DAI", "USDT", "BUSD", "USDC", "BTC", "WBTC", "WETH", "ETH"]).map String.toList

def BASE_PAIRS : List Str :=
  (["ETH-USDC", "USDC-USDT", "BTC-USDC", "ETH-BTC", "ETH-USDT", "ETH-DAI",
    "BTC-DAI"]).map String.toList

/-- Source: `BINANCE_PAIRS = [i.replace("-", "") for i in BASE_PAIRS]`. -/
def BINANCE_PAIRS : List Str := BASE_PAIRS.map (fun p => p.filter (fun c => c ≠ '-'))

def BINANCE_STABLES : List Str := (["USDCUSDT"]).map String.toList

/-- Modelled from the spec: `CbProducts` (coinbaseUtils.py) fetches Coinbase
product data over the network, so the venue-native symbols are not derivable
from the source alone.  Per the spec's Venue Catalog description (canonical ↔
venue-native mapping, USDC rendered as USD on Coinbase), the mapping for the
default `BASE_PAIRS` is fixed here. -/
def COINBASE_PAIRS : List Str :=
  (["ETH-USD", "USDT-USD", "BTC-USD", "ETH-BTC", "ETH-USDT", "ETH-DAI",
    "BTC-DAI"]).map String.toList

/-- Modelled from the spec: the Coinbase stable-pair set (`fx_stablecoin`
products) comes from the same network data; fixed to the one stable product
among `COINBASE_PAIRS`. -/
def CB_STABLE_PAIRS : List Str := (["USDT-USD"]).map String.toList

/-- Python `list(keys)[list(vals).index(v)]`: first key whose value is `v`;
`ValueError` (modelled `.error`) when absent. -/
def assocFind (keys vals : List Str) (v : Str) : Except Unit Str :=
  match (keys.zip vals).find? (fun kv => kv.2 == v) with
  | some kv => .ok kv.1
  | none => .error ()

/-- Model of `ExchangesConstants.get_exch_pair` (venue pair from canonical pair). -/
def get_exch_pair (exch pair : Str) : Except Unit Str :=
  if exch = sCoinbase then assocFind COINBASE_PAIRS BASE_PAIRS pair
  else if exch = sBinance then assocFind BINANCE_PAIRS BASE_PAIRS pair
  else if exch = sOkx then assocFind BASE_PAIRS BASE_PAIRS pair
  else .error ()

/-- Python `"-".join(pair.split("-")[::-1])`. -/
def reversePair (pair : Str) : Str := joinWith ['-'] (splitDash pair).reverse

/-- The suffix-stripping step of `exchFees`: the source strips the venue
suffix only when `"_joined"` occurs in the venue name (the join suffix the
system actually uses is `"_jnd"`). -/
def exchStrip (exch : Str) : Str :=
  if subStr sJoined exch then (splitUnder exch).headD [] else exch

/-- The pair-reversal step of `exchFees` for an inverse lookup. -/
def pairAdj (pair : Str) (inverse : Bool) : Str :=
  if inverse then reversePair pair else pair

/-- The venue dispatch of `exchFees` after stripping/reversal.  Fee rates are
the source constants (binance spot 0.000405 / stables 0, okx 0.0004,
coinbase spot 0.001 / stables 0.00001).  A missing venue is a `KeyError` on
`EXCH_DATA`, a missing pair a `ValueError` inside `get_exch_pair`; both are
modelled as `.error`. -/
def exchFeesCore (exch pair : Str) : Except Unit ℚ :=
  if exch = sCoinbase then
    if pair ≠ [] then
      match get_exch_pair sCoinbase pair with
      | .error u => .error u
      | .ok cbp => .ok (if cbp ∈ CB_STABLE_PAIRS then 1/100000 else 1/1000)
    else .ok (1/1000)
  else if exch = sBinance then
    if pair ≠ [] then
      match get_exch_pair sBinance pair with
      | .error u => .error u
      | .ok bp => .ok (if bp ∈ BINANCE_STABLES then 0 else 81/200000)
    else .ok (81/200000)
  else if exch = sOkx then .ok (1/2500)
  else .error ()

/-- Model of `ExchangesConstants.exchFees` (exchangesData.py:105). -/
def exchFees (exch pair : Str) (inverse : Bool) : Except Unit ℚ :=
  exchFeesCore (exchStrip exch) (pairAdj pair inverse)

/-- Model of `ExchangesConstants.comboFees` (sum of per-hop fees; first raised error
propagates). -/
def comboFees (l : List (Str × Str)) : Except Unit ℚ :=
  match l with
  | [] => .ok 0
  | (e, p) :: rest =>
    match exchFees e p false, comboFees rest with
    | .ok f, .ok s => .ok (f + s)
    | .error u, _ => .error u
    | _, .error u => .error u

/-! ## Pair synthesizer (`comboBooks.py`) -/

/-- Model of `find_pairs` (comboBooks.py:29).  Faithful to the source's substring
matching (`quote in p`, `base in p`), `startswith`/`endswith`, the
`idx`-positional filter against the comma-joined related pairs, and the
final positional `zip`. -/
def find_pairs (wanted_pair : Str) (known_pairs : List Str)
    (valid_quotes : List Str) : List (Str × Str) :=
  let base := (splitDash wanted_pair).headD []
  let quote := (splitDash wanted_pair).getD 1 []
  let existing_pairs := known_pairs.filter (fun p => subStr quote p && subStr base p)
  match existing_pairs with
  | e :: _ => [(e, e)]
  | [] =>
    let common_base_pairs :=
      known_pairs.filter (fun p => base.isPrefixOf p || base.isSuffixOf p)
    let common_quotes := dedupFirst (common_base_pairs.map (fun p => (splitDash p).getD 1 []))
    let common_quotes := common_quotes.filter (fun q => q ∈ valid_quotes)
    let related₁ :=
      (common_quotes.map (fun q =>
        known_pairs.filter (fun p => subStr q p && subStr quote p))).flatten
    let fallback :=
      (common_base_pairs.map (fun pr =>
        known_pairs.filter (fun p =>
          subStr ((splitDash pr).headD []) p && subStr quote p))).flatten
    let related := if related₁ = [] then fallback else related₁
    let idx : Nat := if related₁ = [] then 0 else 1
    let cbp :=
      if related ≠ [] then
        common_base_pairs.filter (fun p =>
          subStr ((splitDash p).getD idx []) (joinWith [','] related))
      else common_base_pairs
    cbp.zip related

structure CombineCaseLogic where
  name : Str
  pair : Str
  p1 : Str
  p2 : Str
  asks : Str × Str
  bids : Str × Str
deriving DecidableEq

structure CombineCases where
  common_quote : CombineCaseLogic
  common_base : CombineCaseLogic
  quote_base : CombineCaseLogic
  base_quote : CombineCaseLogic

/-- Model of `get_cases` (comboBooks.py:273). -/
def get_cases (pair p1 p2 : Str) : CombineCases :=
  { common_quote := ⟨"common_quote".toList, pair, p1, p2, (sAsks, sBids), (sBids, sAsks)⟩
    common_base := ⟨"common_base".toList, pair, p1, p2, (sBids, sAsks), (sAsks, sBids)⟩
    quote_base := ⟨"quote_base".toList, pair, p1, p2, (sAsks, sAsks), (sBids, sBids)⟩
    base_quote := ⟨"base_quote".toList, pair, p1, p2, (sBids, sBids), (sAsks, sAsks)⟩ }

/-- Model of `case_select` (comboBooks.py:291). -/
def case_select (pair p1 p2 : Str) : Option CombineCaseLogic :=
  let cases := get_cases pair p1 p2
  let b1 := (splitDash p1).headD []
  let q1 := (splitDash p1).getD 1 []
  let b2 := (splitDash p2).headD []
  let q2 := (splitDash p2).getD 1 []
  if q1 = q2 then some cases.common_quote
  else if b1 = b2 then some cases.common_base
  else if q1 = b2 then some cases.quote_base
  else if b1 = q2 then some cases.base_quote
  else none

/-! ## Rounding and decimal-place observation (`utils.py`, `orderbook.py`) -/

/-- Model of `round_digits` (utils.py:55). -/
def round_digits (precision_a precision_b : ℤ) (num : ℚ) : ℤ :=
  let init_precision := max precision_a precision_b
  let precision : ℤ :=
    if 1/100 < num ∧ num < 1 then 5
    else if num ≤ 1/100 then 8
    else 2
  max precision init_precision

/-- Round half to even (Python 3 `round` on an exact decimal value). -/
def roundHalfEven (x : ℚ) : ℤ :=
  let n := ⌊x⌋
  let r := x - (n : ℚ)
  if r < 1/2 then n
  else if 1/2 < r then n + 1
  else if n % 2 = 0 then n else n + 1

/-- Python `round(x, d)` on an exact decimal value. -/
def roundTo (x : ℚ) (d : ℤ) : ℚ := (roundHalfEven (x * 10 ^ d) : ℚ) / 10 ^ d

/-- Least `d` (up to the fuel) such that `x * 10 ^ d` is an integer. -/
def decSearch : ℕ → ℚ → ℕ
  | 0, _ => 0
  | fuel + 1, x => if (⌊x⌋ : ℚ) = x then 0 else 1 + decSearch fuel (x * 10)

/-- Observed decimal places of one stored value: the length of the fractional
part of Python's `str` of the float (`1` for integral values such as `10.0`,
the exponent for scientific values such as `1e-8`).  For a rational with a
finite decimal expansion this is `max 1` of the number of decimals; the fuel
64 exceeds the fractional length Python ever prints for a float. -/
def decObserved (q : ℚ) : ℕ := max 1 (decSearch 64 q)

/-! ## Order-book data model (`orderbook.py`) -/

structure DebugOrderBookEntry where
  price : ℚ
  size : ℚ
  exch : Str
  fees : ℚ
  pair : Str
  side : Str
deriving DecidableEq

structure OrderBookEntry where
  price : ℚ
  size : ℚ
  exch : Str
  debug : List DebugOrderBookEntry
deriving DecidableEq

structure WapLevelsEntry where
  price : ℚ
  size : ℚ
  exch : Str
  wap : ℚ
  amt : ℚ
deriving DecidableEq

structure BookLevelIdxAmt where
  idx : ℕ
  qty : ℚ
deriving DecidableEq

structure BookLevelsState where
  asks : BookLevelIdxAmt
  bids : BookLevelIdxAmt
deriving DecidableEq

def freshLevelsState : BookLevelsState := ⟨⟨0, 0⟩, ⟨0, 0⟩⟩

/-- Model of `OrderBookItem`.  The catalog reference `xc` is the fixed default catalog
modelled above, so it is not a field.  `prcDecCache`/`sizeDecCache` model the
`functools.cached_property` slots for `lenPrcDecimals`/`lenSizeDecimals`
(`none` = not yet computed). -/
structure OrderBookItem where
  exch : Str
  pair : Str
  ts : ℚ
  bids : List OrderBookEntry
  asks : List OrderBookEntry
  quote_state : BookLevelsState
  base_state : BookLevelsState
  prcDecCache : Option ℕ
  sizeDecCache : Option ℕ
deriving DecidableEq

/-- Stable insertion step for descending price order: the element is inserted
before the first entry whose price is ≤ its own, which keeps the original
relative order of equal prices just as Python's stable `sort` does. -/
def insDesc (x : OrderBookEntry) : List OrderBookEntry → List OrderBookEntry
  | [] => [x]
  | y :: ys => if y.price ≤ x.price then x :: y :: ys else y :: insDesc x ys

def sortDesc : List OrderBookEntry → List OrderBookEntry
  | [] => []
  | x :: xs => insDesc x (sortDesc xs)

/-- Stable insertion step for ascending price order. -/
def insAsc (x : OrderBookEntry) : List OrderBookEntry → List OrderBookEntry
  | [] => [x]
  | y :: ys => if x.price ≤ y.price then x :: y :: ys else y :: insAsc x ys

def sortAsc : List OrderBookEntry → List OrderBookEntry
  | [] => []
  | x :: xs => insAsc x (sortAsc xs)

/-- Model of `OrderBookItem.__init__` (orderbook.py:169): sorts both sides, replaces a
falsy (zero) timestamp by the current time (`now` made explicit) and starts
with fresh WAP cursors and unset caches. -/
def mkOrderBookItem (exchange pair : Str) (ts : ℚ) (bids asks : List OrderBookEntry)
    (now : ℚ) : OrderBookItem :=
  { exch := exchange
    pair := pair
    ts := if ts = 0 then now else ts
    bids := sortDesc bids
    asks := sortAsc asks
    quote_state := freshLevelsState
    base_state := freshLevelsState
    prcDecCache := none
    sizeDecCache := none }

/-- Model of `OrderBookItem.copy_self` (orderbook.py:576): rebuild through `__init__`
from deep copies of the level lists. -/
def copy_self (b : OrderBookItem) (now : ℚ) : OrderBookItem :=
  mkOrderBookItem b.exch b.pair b.ts b.bids b.asks now

/-- Model of `OrderBookItem._getDecimals` (orderbook.py:223): running max of the
observed decimal places, starting from 1. -/
def getDecimals (levels : List OrderBookEntry) (isPrice : Bool) : ℕ :=
  levels.foldl (fun deci e => max deci (decObserved (if isPrice then e.price else e.size))) 1

/-- Model of `OrderBookItem.lenPrcDecimals` (orderbook.py:234): `cached_property`
access; returns the value together with the book holding the filled cache. -/
def lenPrcDecimalsAccess (b : OrderBookItem) : ℕ × OrderBookItem :=
  match b.prcDecCache with
  | some v => (v, b)
  | none =>
    let v := max (getDecimals b.bids true) (getDecimals b.asks true)
    (v, { b with prcDecCache := some v })

/-- Model of `OrderBookItem.lenSizeDecimals` (orderbook.py:239). -/
def lenSizeDecimalsAccess (b : OrderBookItem) : ℕ × OrderBookItem :=
  match b.sizeDecCache with
  | some v => (v, b)
  | none =>
    let v := max (getDecimals b.bids false) (getDecimals b.asks false)
    (v, { b with sizeDecCache := some v })

/-- Model of `OrderBookItem.roundPriceToDecimal` (orderbook.py:244): rounds every price
in place; the caches are left untouched. -/
def roundPriceToDecimal (b : OrderBookItem) (dec : ℤ) : OrderBookItem :=
  { b with
    bids := b.bids.map (fun e => { e with price := roundTo e.price dec })
    asks := b.asks.map (fun e => { e with price := roundTo e.price dec }) }

/-! ## Fee-adjusted views (`OrderBookItem.sideAfterFees`) -/

/-- One adjusted level of `sideAfterFees` (orderbook.py:251), given the fee
`f` the catalog returned for the level's origin venue. -/
def feeAdjEntry (pair : Str) (d : ℤ) (sign add_fee : ℚ) (sideStr : Str)
    (e : OrderBookEntry) (f : ℚ) : OrderBookEntry :=
  let new_fee := f + add_fee
  let prc0 := e.price * (1 + sign * new_fee)
  let prc := roundTo prc0 (round_digits d 0 prc0)
  let dbg :=
    if add_fee ≠ 0 then
      e.debug ++ [⟨e.price, e.size, e.exch, new_fee, pair,
        if sideStr = sAsks then sBuy else sSell⟩]
    else e.debug
  ⟨prc, e.size, e.exch, dbg⟩

/-- The loop of `sideAfterFees`: the first failing catalog lookup raises. -/
def feesMap (pair : Str) (d : ℤ) (sign add_fee : ℚ) (sideStr : Str)
    (inverse : Bool) : List OrderBookEntry → Except Unit (List OrderBookEntry)
  | [] => .ok []
  | e :: es =>
    match exchFees e.exch pair inverse with
    | .error u => .error u
    | .ok f =>
      match feesMap pair d sign add_fee sideStr inverse es with
      | .error u => .error u
      | .ok rest => .ok (feeAdjEntry pair d sign add_fee sideStr e f :: rest)

/-- Model of `OrderBookItem.sideAfterFees` (orderbook.py:251).  `side` is one of
`sAsks`/`sBids` (any other string raises `AttributeError` in the source). -/
def sideAfterFees (b : OrderBookItem) (side : Str) (add_fee : ℚ)
    (inverse : Bool) : Except Unit (List OrderBookEntry) :=
  let d := (lenPrcDecimalsAccess b).1
  let sign : ℚ := if side = sBids then -1 else 1
  let entries := if side = sBids then b.bids else b.asks
  feesMap b.pair (d : ℤ) sign add_fee side inverse entries

def bidsAfterFees (b : OrderBookItem) (add_fee : ℚ) (inverse : Bool) :
    Except Unit (List OrderBookEntry) :=
  sideAfterFees b sBids add_fee inverse

def asksAfterFees (b : OrderBookItem) (add_fee : ℚ) (inverse : Bool) :
    Except Unit (List OrderBookEntry) :=
  sideAfterFees b sAsks add_fee inverse

/-! ## WAP traversal engine (`orderbook.py`) -/

/-- The accumulation loop of `wap_base` (orderbook.py:283). -/
def wapBaseTot : List OrderBookEntry → ℚ → ℚ
  | [], _ => 0
  | l :: ls, qty =>
    if l.size ≤ qty then l.price * l.size + wapBaseTot ls (qty - l.size)
    else l.price * qty

/-- Model of `OrderBookItem.wap_base` with the default `incl_fees=False` (the
fee-inclusive variant walks the `sideAfterFees` output instead).  The final
division is unguarded in the source, so `base_qty = 0` raises
`ZeroDivisionError`, modelled as `none`. -/
def wap_base (b : OrderBookItem) (base_qty : ℚ) (side : Str) : Option ℚ :=
  let levels := if side = sBids then b.bids else b.asks
  let tot := wapBaseTot levels base_qty
  if base_qty = 0 then none else some (tot / base_qty)

/-- The accumulation loop of `wap_quote` (orderbook.py:299). -/
def wapQuoteSize : List OrderBookEntry → ℚ → ℚ
  | [], _ => 0
  | l :: ls, qty =>
    if l.size * l.price ≤ qty then l.size + wapQuoteSize ls (qty - l.size * l.price)
    else qty / l.price

/-- Model of `OrderBookItem.wap_quote` with `incl_fees=False`.  The final division is
guarded (`quote_qty / tot_size if tot_size else 0.0`). -/
def wap_quote (b : OrderBookItem) (quote_qty : ℚ) (side : Str) : ℚ :=
  let levels := if side = sBids then b.bids else b.asks
  let tot_size := wapQuoteSize levels quote_qty
  if tot_size = 0 then 0 else quote_qty / tot_size

/-- The level-walking loop of `wap_base_levels` (orderbook.py:315), started
with carried-over consumption `ignore` on the first level of the slice.
Returns the emitted levels, the number of fully consumed levels (the
cursor-index advance) and the final partial consumption (the cursor
quantity). -/
def wapWalk : List OrderBookEntry → ℚ → ℚ → List WapLevelsEntry × ℕ × ℚ
  | [], _, ignore => ([], 0, ignore)
  | lvl :: ls, qty, ignore =>
    let lvl_base_qty := lvl.size - ignore
    if lvl_base_qty ≤ qty then
      let r := wapWalk ls (qty - lvl_base_qty) 0
      (⟨lvl.price, lvl_base_qty, lvl.exch, lvl.price, lvl_base_qty * lvl.price⟩ :: r.1,
        r.2.1 + 1, r.2.2)
    else
      ([⟨lvl.price, qty, lvl.exch, lvl.price, qty * lvl.price⟩], 0, ignore + qty)

def stateOf (b : OrderBookItem) (side : Str) : BookLevelIdxAmt :=
  if side = sBids then b.base_state.bids else b.base_state.asks

def levelsOf (b : OrderBookItem) (side : Str) : List OrderBookEntry :=
  if side = sBids then b.bids else b.asks

/-- Model of `OrderBookItem.wap_base_levels` (orderbook.py:315) with the default
`incl_fees=False`; returns the emitted levels together with the book whose
per-side base cursor has advanced (the source mutates `self._base_state`). -/
def wap_base_levels (b : OrderBookItem) (base_qty : ℚ) (side : Str) :
    List WapLevelsEntry × OrderBookItem :=
  let st := stateOf b side
  let walk := wapWalk ((levelsOf b side).drop st.idx) base_qty st.qty
  let st' : BookLevelIdxAmt := ⟨st.idx + walk.2.1, walk.2.2⟩
  (walk.1,
    { b with base_state :=
        if side = sBids then { b.base_state with bids := st' }
        else { b.base_state with asks := st' } })

/-- Model of `OrderBookItem.reset_wap_state` (orderbook.py:401). -/
def reset_wap_state (b : OrderBookItem) : OrderBookItem :=
  { b with quote_state := freshLevelsState, base_state := freshLevelsState }

def sumSizes (L : List OrderBookEntry) : ℚ := (L.map (fun e => e.size)).sum

/-! ## Order-flow imbalance (`OrderBookItem.orderFlowImbalance`) -/

/-- The helper `get_price_size` inside `orderFlowImbalance`: missing ranks
count as price 0, size 0. -/
def get_price_size (prices : List OrderBookEntry) (idx : ℕ) : ℚ × ℚ :=
  match prices[idx]? with
  | some e => (e.price, e.size)
  | none => (0, 0)

/-- Bid-side ΔV at rank `i` (orderbook.py:529). -/
def bidDeltaV (curr prev : List OrderBookEntry) (i : ℕ) : ℚ :=
  let pp := get_price_size prev i
  let cp := get_price_size curr i
  if pp.1 < cp.1 then cp.2
  else if cp.1 = pp.1 then cp.2 - pp.2
  else -pp.2

/-- Ask-side ΔV at rank `i` (orderbook.py:541), the mirrored rule. -/
def askDeltaV (curr prev : List OrderBookEntry) (i : ℕ) : ℚ :=
  let pp := get_price_size prev i
  let cp := get_price_size curr i
  if pp.1 < cp.1 then -pp.2
  else if cp.1 = pp.1 then cp.2 - pp.2
  else cp.2

/-- Model of `OrderBookItem.orderFlowImbalance` (orderbook.py:510). -/
def orderFlowImbalance (b : OrderBookItem) (prev_bids prev_asks : List OrderBookEntry)
    (top_n : ℕ) : ℚ :=
  let total_delta_bid :=
    (List.range top_n).foldl (fun acc i => acc + bidDeltaV b.bids prev_bids i) 0
  let total_delta_ask :=
    (List.range top_n).foldl (fun acc i => acc + askDeltaV b.asks prev_asks i) 0
  total_delta_bid - total_delta_ask

/-- The OFI rule in the spec's words: sum over ranks `i < n` of bid ΔV minus
the sum of ask ΔV, missing ranks counting as `(0, 0)`. -/
def ofiSpecRule (curr_bids curr_asks prev_bids prev_asks : List OrderBookEntry)
    (n : ℕ) : ℚ :=
  (∑ i ∈ Finset.range n, bidDeltaV curr_bids prev_bids i) -
    ∑ i ∈ Finset.range n, askDeltaV curr_asks prev_asks i

/-! ## Book lookup (`comboBooks.get_exch_book`) -/

def lookupVenue (obs : List (Str × List OrderBookItem)) (k : Str) :
    Option (List OrderBookItem) :=
  (obs.find? (fun kv => kv.1 == k)).map (fun kv => kv.2)

/-- Model of `get_exch_book` (comboBooks.py:84).  The fallback recursion passes
`fallback=False`, so it is inlined as one extra lookup on the parent venue. -/
def get_exch_book (exch pair : Str) (obs : List (Str × List OrderBookItem))
    (as_copy fallback : Bool) (now : ℚ) : Option OrderBookItem :=
  match ((lookupVenue obs exch).getD []).find? (fun ob => ob.pair == pair) with
  | some ob => some (if as_copy then copy_self ob now else ob)
  | none =>
    if fallback && sJnd.isSuffixOf exch then
      match ((lookupVenue obs ((splitUnder exch).headD [])).getD []).find?
          (fun ob => ob.pair == pair) with
      | some ob => some (if as_copy then copy_self ob now else ob)
      | none => none
    else none

/-! ## Sample data used by witnesses and counterexamples -/

def okxE (p s : ℚ) : OrderBookEntry := ⟨p, s, sOkx, []⟩

def bkSample : OrderBookItem :=
  ⟨sOkx, "ETH-USDT".toList, 1, [okxE 10 1], [okxE 10 1],
    freshLevelsState, freshLevelsState, none, none⟩

/-! ## C8 — rounding-precision rule -/

/-- C8: for all integers `a`, `b` and every `v`, `round_digits a b v` is
`max (max a b) r` where `r = 5` when `1e-2 < v < 1`, `r = 8` when
`v ≤ 1e-2`, and `r = 2` otherwise (`v ≥ 1`). -/
theorem round_digits_rule (a b : ℤ) (v : ℚ) :
    (1/100 < v ∧ v < 1 → round_digits a b v = max (max a b) 5) ∧
    (v ≤ 1/100 → round_digits a b v = max (max a b) 8) ∧
    (1 ≤ v → round_digits a b v = max (max a b) 2) := by
  refine ⟨fun h => ?_, fun h => ?_, fun h => ?_⟩ <;> simp only [round_digits]
  · rw [if_pos h]; exact max_comm _ _
  · rw [if_neg (fun hc => absurd hc.1 (not_lt.mpr h)), if_pos h]
    exact max_comm _ _
  · rw [if_neg (fun hc => absurd hc.2 (not_lt.mpr h)),
      if_neg (not_le.mpr (by linarith))]
    exact max_comm _ _

/-- Witness for C8 at `a = 3`, `b = 0`, `v = 1/2`. -/
theorem round_digits_rule_witness : round_digits 3 0 (1/2) = max (max 3 0) 5 :=
  (round_digits_rule 3 0 (1/2)).1 ⟨by norm_num, by norm_num⟩

/-! ## C9 — `wap_base` division is unguarded, `wap_quote` is guarded -/

/-- C9: `wap_base` with `base_qty = 0` hits an unguarded division by zero
(no defined result, modelled `none`) on every book, including non-empty
ones; for `base_qty ≠ 0` the division is safe and a result is always
produced; by contrast `wap_quote` guards its division and returns `0` when
nothing is consumed. -/
theorem wap_base_zero_div_unguarded :
    (∀ b : OrderBookItem, ∀ side, wap_base b 0 side = none) ∧
    (∀ b : OrderBookItem, ∀ side, ∀ q : ℚ, q ≠ 0 → (wap_base b q side).isSome = true) ∧
    (∀ b : OrderBookItem, ∀ side, ∀ q : ℚ,
      wapQuoteSize (if side = sBids then b.bids else b.asks) q = 0 →
        wap_quote b q side = 0) := by
  refine ⟨fun b side => ?_, fun b side q hq => ?_, fun b side q h => ?_⟩
  · simp [wap_base]
  · simp [wap_base, hq]
  · simp [wap_quote, h]

/-- Witness for C9 on a non-empty book. -/
theorem wap_base_zero_div_witness :
    wap_base bkSample 0 sAsks = none ∧
    (wap_base bkSample 1 sAsks).isSome = true ∧
    wap_quote bkSample 0 sAsks = 0 :=
  ⟨wap_base_zero_div_unguarded.1 bkSample sAsks,
    wap_base_zero_div_unguarded.2.1 bkSample sAsks 1 (by norm_num),
    wap_base_zero_div_unguarded.2.2 bkSample sAsks 0
      (by norm_num +decide [wapQuoteSize, bkSample, okxE])⟩

/-! ## C5 — unknown-venue fee lookup -/

/-- C5 (counterexample): `exchFees` on the venue `binance_jnd` (the join
suffix the system actually uses, with a known parent) and on a plain unknown
venue raises `KeyError` (modelled `.error`) — it does not return a zero
fee. -/
theorem exchFees_unknown_venue_error :
    exchFees ("binance_jnd".toList) ("ETH-USDT".toList) false = .error () ∧
    exchFees ("acme".toList) ("ETH-USDT".toList) false = .error () ∧
    exchFees ("binance_jnd".toList) ("ETH-USDT".toList) false ≠ .ok 0 := by
  refine ⟨rfl, rfl, ?_⟩
  intro h
  rw [show exchFees ("binance_jnd".toList) ("ETH-USDT".toList) false
      = Except.error () from rfl] at h
  exact Except.noConfusion h

/-- C5 (amended): for every venue that, after the source's `"_joined"`
stripping, is none of the cataloged venues (in particular every `_jnd`
suffixed venue, since only `"_joined"` is stripped), `exchFees` raises
`KeyError` — the lookup aborts instead of returning a zero fee. -/
theorem exchFees_error_of_unknown_venue (exch pair : Str) (inverse : Bool)
    (h1 : exchStrip exch ≠ sCoinbase) (h2 : exchStrip exch ≠ sBinance)
    (h3 : exchStrip exch ≠ sOkx) :
    exchFees exch pair inverse = .error () := by
  unfold exchFees exchFeesCore
  split_ifs <;> simp_all

/-- Witness for C5 at the venue `binance_jnd`. -/
theorem exchFees_error_witness :
    exchFees ("binance_jnd".toList) ("USDC-USDT".toList) true = .error () :=
  exchFees_error_of_unknown_venue _ _ true (by decide) (by decide) (by decide)

/-! ## C4 — degenerate pass-through of `find_pairs` -/

/-- C4 (counterexample): with `want = A-B` and `known = [B-A]`, some known
pair contains both currencies of `want`, yet `find_pairs` returns that known
pair paired with itself — not `(want, want)`. -/
theorem find_pairs_passthrough_not_want :
    find_pairs ("A-B".toList) (["B-A"].map String.toList) [] =
      [(("B-A").toList, ("B-A").toList)] ∧
    (("B-A").toList, ("B-A").toList) ≠ (("A-B").toList, ("A-B").toList) :=
  ⟨rfl, by decide⟩

/-- C4 (amended): if some known pair contains both currencies of `want` (as
substrings, quote checked first), `find_pairs` returns the singleton
`[(p0, p0)]` where `p0` is the *first* such known pair — which equals
`(want, want)` only when that first match is literally `want`. -/
theorem find_pairs_passthrough_first_match (want : Str) (known valid : List Str)
    (p : Str) (rest : List Str)
    (h : known.filter (fun q => subStr ((splitDash want).getD 1 []) q &&
        subStr ((splitDash want).headD []) q) = p :: rest) :
    find_pairs want known valid = [(p, p)] := by
  simp only [find_pairs]
  rw [h]

/-- Witness for C4: `ETH-KNC` is the first known pair containing both
currencies of `KNC-ETH`. -/
theorem find_pairs_passthrough_witness :
    find_pairs ("KNC-ETH".toList) (["ETH-KNC"].map String.toList) [] =
      [(("ETH-KNC").toList, ("ETH-KNC").toList)] :=
  find_pairs_passthrough_first_match _ _ _ (("ETH-KNC").toList) [] (by rfl)

/-! ## C1 — case-selector totality over `find_pairs` output -/

/-- C1 (counterexample): `find_pairs` can return a tuple whose two pairs
share no currency in any of the four positional configurations, on which
`case_select` returns `none`: `want = A-Z`, `known = [A-U, BU-Z]`,
`valid_quotes = [U]` yields the tuple `(A-U, BU-Z)` (substring matching
lets `BU-Z` pass as a `U`-related pair). -/
theorem case_select_none_on_find_pairs_output :
    find_pairs ("A-Z".toList) (["A-U", "BU-Z"].map String.toList)
        (["U"].map String.toList) =
      [(("A-U").toList, ("BU-Z").toList)] ∧
    case_select ("A-Z".toList) ("A-U".toList) ("BU-Z".toList) = none :=
  ⟨rfl, rfl⟩

/-- C1 (amended): for every tuple `(p1, p2)` returned by `find_pairs` whose
pairs do share a currency in one of the four positional configurations,
`case_select` returns a non-null case; totality over all of `find_pairs`
output fails (see the counterexample). -/
theorem case_select_some_of_shared_currency (want p1 p2 : Str)
    (known valid : List Str)
    (hmem : (p1, p2) ∈ find_pairs want known valid)
    (hshare :
      (splitDash p1).getD 1 [] = (splitDash p2).getD 1 [] ∨
      (splitDash p1).headD [] = (splitDash p2).headD [] ∨
      (splitDash p1).getD 1 [] = (splitDash p2).headD [] ∨
      (splitDash p1).headD [] = (splitDash p2).getD 1 []) :
    (case_select want p1 p2).isSome = true := by
  simp only [case_select]
  split_ifs <;> simp_all

/-- Witness for C1 on the source docstring's example
(`KNC-ETH` from `KNC-USDT` and `ETH-USDT`, common quote `USDT`). -/
theorem case_select_some_witness :
    (case_select ("KNC-ETH".toList) ("KNC-USDT".toList) ("ETH-USDT".toList)).isSome
      = true :=
  case_select_some_of_shared_currency ("KNC-ETH".toList) _ _
    (["ETH-USDT", "USDC-USDT", "KNC-USDT", "ETH-DAI"].map String.toList)
    VALID_QUOTES (by decide) (Or.inl (by decide))

/-! ## C6 — cached decimal counts under mutation -/

def bkC6 : OrderBookItem :=
  ⟨sOkx, "ETH-USDT".toList, 1, [okxE (11/10) 1], [okxE (1123456/1000000) 1],
    freshLevelsState, freshLevelsState, none, none⟩

/-- The book after the first `lenPrcDecimals` access (the cache now holds 6). -/
def bkC6Accessed : OrderBookItem := (lenPrcDecimalsAccess bkC6).2

/-- The accessed book after the mutation `roundPriceToDecimal 2`. -/
def bkC6Rounded : OrderBookItem := roundPriceToDecimal bkC6Accessed 2

def bkC6Cached : OrderBookItem :=
  ⟨sOkx, "ETH-USDT".toList, 1, [okxE (11/10) 1], [okxE (1123456/1000000) 1],
    freshLevelsState, freshLevelsState, some 6, none⟩

def bkC6Mutated : OrderBookItem :=
  ⟨sOkx, "ETH-USDT".toList, 1, [okxE (11/10) 1], [okxE (28/25) 1],
    freshLevelsState, freshLevelsState, some 6, none⟩

theorem lenPrc_access_none (b : OrderBookItem) (h : b.prcDecCache = none) :
    lenPrcDecimalsAccess b =
      (max (getDecimals b.bids true) (getDecimals b.asks true), { b with prcDecCache := some (max (getDecimals b.bids true) (getDecimals b.asks true)) }) := by
  simp only [lenPrcDecimalsAccess, h]

theorem lenPrc_access_some (b : OrderBookItem) (v : ℕ) (h : b.prcDecCache = some v) :
    lenPrcDecimalsAccess b = (v, b) := by
  simp only [lenPrcDecimalsAccess, h]

/-- C6 (code bug): after `lenPrcDecimals` has been accessed (cached 6) and
`roundPriceToDecimal 2` has mutated all prices to 2 decimals, the cache
still reads 6 while recomputing the maximum observed decimal places over the
mutated levels gives 2 — the mutation routine neither invalidates nor
recomputes the cache, contradicting the spec's stated requirement. -/
theorem lenPrcDecimals_stale_after_round :
    (lenPrcDecimalsAccess bkC6).1 = 6 ∧
    (lenPrcDecimalsAccess bkC6Rounded).1 = 6 ∧
    max (getDecimals bkC6Rounded.bids true) (getDecimals bkC6Rounded.asks true) = 2 ∧
    (6 : ℕ) ≠ 2 := by
  have d1 : decObserved (11/10 : ℚ) = 1 := by norm_num [decObserved, decSearch]
  have d2 : decObserved (1123456/1000000 : ℚ) = 6 := by
    norm_num [decObserved, decSearch]
  have d3 : decObserved (28/25 : ℚ) = 2 := by norm_num [decObserved, decSearch]
  have g1 : getDecimals [okxE (11/10) 1] true = 1 := by
    simp [getDecimals, okxE, d1]
  have g2 : getDecimals [okxE (1123456/1000000) 1] true = 6 := by
    simp [getDecimals, okxE, d2]
  have hv : max (getDecimals bkC6.bids true) (getDecimals bkC6.asks true) = 6 := by
    rw [show bkC6.bids = [okxE (11/10) 1] from rfl,
      show bkC6.asks = [okxE (1123456/1000000) 1] from rfl, g1, g2]
    decide
  have hacc : lenPrcDecimalsAccess bkC6 = (6, bkC6Cached) := by
    rw [lenPrc_access_none bkC6 rfl, hv]; rfl
  have hr1 : roundTo (11/10 : ℚ) 2 = 11/10 := by
    rw [roundTo]; norm_num [roundHalfEven]
  have hr2 : roundTo (1123456/1000000 : ℚ) 2 = 28/25 := by
    rw [roundTo]; norm_num [roundHalfEven]
  have hround : bkC6Rounded = bkC6Mutated := by
    unfold bkC6Rounded bkC6Accessed
    rw [hacc]
    simp [roundPriceToDecimal, bkC6Cached, bkC6Mutated, okxE, hr1, hr2]
  have g3 : getDecimals [okxE (28/25) 1] true = 2 := by
    simp [getDecimals, okxE, d3]
  refine ⟨by rw [hacc], ?_, ?_, by norm_num⟩
  · rw [hround, lenPrc_access_some bkC6Mutated 6 rfl]
  · rw [hround, show bkC6Mutated.bids = [okxE (11/10) 1] from rfl,
      show bkC6Mutated.asks = [okxE (28/25) 1] from rfl, g1, g3]
    decide

/-! ## C7 — order-flow-imbalance rule -/

theorem foldl_add_range (f : ℕ → ℚ) (n : ℕ) :
    (List.range n).foldl (fun acc i => acc + f i) 0 = ∑ i ∈ Finset.range n, f i := by
  induction n with
  | zero => simp
  | succ n ih => simp [List.range_succ, Finset.sum_range_succ, ih]

def bkS6 : OrderBookItem :=
  ⟨sOkx, "ETH-USDT".toList, 1, [okxE 101 4, okxE 100 5], [okxE 102 2, okxE 103 1],
    freshLevelsState, freshLevelsState, none, none⟩

def s6PrevBids : List OrderBookEntry := [okxE 100 5, okxE 99 3]

def s6PrevAsks : List OrderBookEntry := [okxE 102 2, okxE 103 1]

theorem ofi_eq_ofiSpec (b : OrderBookItem) (pb pa : List OrderBookEntry) (n : ℕ) :
    orderFlowImbalance b pb pa n = ofiSpecRule b.bids b.asks pb pa n := by
  unfold orderFlowImbalance ofiSpecRule
  rw [foldl_add_range, foldl_add_range]

/-- C7 (counterexample): on the spec's S6 data the code returns 9, not 1
(at bid rank 1 the current price 100 is *greater* than the previous price
99, so ΔV = +5, not −3). -/
theorem orderFlowImbalance_s6_value :
    orderFlowImbalance bkS6 s6PrevBids s6PrevAsks 2 = 9 ∧ (9 : ℚ) ≠ 1 := by
  refine ⟨?_, by norm_num⟩
  rw [ofi_eq_ofiSpec]
  norm_num [ofiSpecRule, Finset.sum_range_succ, bidDeltaV, askDeltaV,
    get_price_size, bkS6, s6PrevBids, s6PrevAsks, okxE]

/-- C7 (amended): `orderFlowImbalance` equals the spec's rank-wise rule — the
sum over ranks `i < n` of bid ΔV minus the sum of ask ΔV, missing ranks
counting as `(0, 0)` — for every book, previous sides and `n`; on the spec's
S6 example, however, the correctly evaluated result is 9 (not 1 as the spec
miscalculates). -/
theorem orderFlowImbalance_rule :
    (∀ (b : OrderBookItem) (pb pa : List OrderBookEntry) (n : ℕ),
      orderFlowImbalance b pb pa n = ofiSpecRule b.bids b.asks pb pa n) ∧
    orderFlowImbalance bkS6 s6PrevBids s6PrevAsks 2 = 9 := by
  refine ⟨ofi_eq_ofiSpec, ?_⟩
  rw [ofi_eq_ofiSpec]
  norm_num [ofiSpecRule, Finset.sum_range_succ, bidDeltaV, askDeltaV,
    get_price_size, bkS6, s6PrevBids, s6PrevAsks, okxE]

/-! ## C10 — `copy_self` preserves data and resets traversal state -/

def SortedDescPrices (l : List OrderBookEntry) : Prop :=
  List.Chain' (fun a b => b.price ≤ a.price) l

def SortedAscPrices (l : List OrderBookEntry) : Prop :=
  List.Chain' (fun a b => a.price ≤ b.price) l

theorem sortDesc_eq_self (l : List OrderBookEntry) (h : SortedDescPrices l) :
    sortDesc l = l := by
  induction l with
  | nil => rfl
  | cons x xs ih =>
    rw [sortDesc, ih h.tail]
    cases xs with
    | nil => rfl
    | cons y ys =>
      have hxy : y.price ≤ x.price := (List.chain'_cons.mp h).1
      rw [insDesc, if_pos hxy]

theorem sortAsc_eq_self (l : List OrderBookEntry) (h : SortedAscPrices l) :
    sortAsc l = l := by
  induction l with
  | nil => rfl
  | cons x xs ih =>
    rw [sortAsc, ih h.tail]
    cases xs with
    | nil => rfl
    | cons y ys =>
      have hxy : x.price ≤ y.price := (List.chain'_cons.mp h).1
      rw [insAsc, if_pos hxy]

/-- C10: `copy_self` rebuilds the book through `__init__` from deep copies of
the level lists, so — for a book satisfying the construction invariants
(non-falsy timestamp, sides sorted) — the copy carries the same exchange,
pair, timestamp and level lists while all four WAP cursors are freshly
initialized to `(idx 0, qty 0)` regardless of the source's cursor state;
and every book `get_exch_book` returns with `as_copy = true` is a
`copy_self` of a stored book holding the requested pair.  In this functional
embedding traversals and mutations return new books, so operating on the
copy leaves the original's levels and cursors unchanged by construction. -/
theorem copy_self_isolates_state :
    (∀ (b : OrderBookItem) (now : ℚ), b.ts ≠ 0 → SortedDescPrices b.bids →
      SortedAscPrices b.asks →
      (copy_self b now).exch = b.exch ∧ (copy_self b now).pair = b.pair ∧
      (copy_self b now).ts = b.ts ∧ (copy_self b now).bids = b.bids ∧
      (copy_self b now).asks = b.asks ∧
      (copy_self b now).base_state = freshLevelsState ∧
      (copy_self b now).quote_state = freshLevelsState) ∧
    (∀ (exch pair : Str) (obs : List (Str × List OrderBookItem)) (fb : Bool)
      (now : ℚ) (c : OrderBookItem),
      get_exch_book exch pair obs true fb now = some c →
      ∃ ob, c = copy_self ob now ∧ ob.pair = pair) := by
  constructor
  · intro b now hts hb ha
    unfold copy_self mkOrderBookItem
    refine ⟨rfl, rfl, ?_, ?_, ?_, rfl, rfl⟩
    · simp [if_neg hts]
    · simp [sortDesc_eq_self b.bids hb]
    · simp [sortAsc_eq_self b.asks ha]
  · intro exch pair obs fb now c h
    unfold get_exch_book at h
    split at h
    · rename_i ob hfind
      refine ⟨ob, ?_, ?_⟩
      · simp only [if_pos rfl] at h
        exact (Option.some.injEq _ _ ▸ h).symm
      · have := List.find?_some hfind
        simpa using this
    · split at h
      · split at h
        · rename_i ob hfind
          refine ⟨ob, ?_, ?_⟩
          · simp only [if_pos rfl] at h
            exact (Option.some.injEq _ _ ▸ h).symm
          · have := List.find?_some hfind
            simpa using this
        · exact absurd h (by simp)
      · exact absurd h (by simp)

def bkC10 : OrderBookItem :=
  ⟨sOkx, "ETH-USDT".toList, 5, [okxE 9 1, okxE 8 2], [okxE 10 1, okxE 11 2],
    ⟨⟨1, 1/2⟩, ⟨0, 0⟩⟩, ⟨⟨2, 3⟩, ⟨1, 1⟩⟩, some 3, none⟩

/-- Witness for C10 on a book with advanced cursors and a filled cache. -/
theorem copy_self_isolates_witness :
    (copy_self bkC10 7).exch = bkC10.exch ∧ (copy_self bkC10 7).pair = bkC10.pair ∧
    (copy_self bkC10 7).ts = bkC10.ts ∧ (copy_self bkC10 7).bids = bkC10.bids ∧
    (copy_self bkC10 7).asks = bkC10.asks ∧
    (copy_self bkC10 7).base_state = freshLevelsState ∧
    (copy_self bkC10 7).quote_state = freshLevelsState :=
  copy_self_isolates_state.1 bkC10 7 (by norm_num [bkC10])
    (by simp [bkC10, SortedDescPrices, okxE]; norm_num)
    (by simp [bkC10, SortedAscPrices, okxE]; norm_num)

/-! ## C3 — fee monotonicity of `sideAfterFees` -/

theorem rhe_ge_floor (x : ℚ) : ⌊x⌋ ≤ roundHalfEven x := by
  simp only [roundHalfEven]
  split_ifs <;> omega

theorem rhe_le_ceil (x : ℚ) : roundHalfEven x ≤ ⌈x⌉ := by
  simp only [roundHalfEven]
  split_ifs with h1 h2 h3
  · exact Int.floor_le_ceil x
  · have hlt : (⌊x⌋ : ℚ) < x := by have := not_lt.mp h1; linarith
    exact Int.add_one_le_iff.mpr (Int.lt_ceil.mpr hlt)
  · exact Int.floor_le_ceil x
  · have hlt : (⌊x⌋ : ℚ) < x := by have := not_lt.mp h1; linarith
    exact Int.add_one_le_iff.mpr (Int.lt_ceil.mpr hlt)

theorem rhe_intCast (m : ℤ) : roundHalfEven (m : ℚ) = m := by
  simp only [roundHalfEven, Int.floor_intCast]
  norm_num

theorem roundTo_ge (x p : ℚ) (d : ℤ) (m : ℤ) (hm : p * 10 ^ d = (m : ℚ))
    (hle : p ≤ x) : p ≤ roundTo x d := by
  unfold roundTo
  rw [le_div_iff (by positivity : (0:ℚ) < 10 ^ d), hm]
  have h1 : (m : ℚ) ≤ x * 10 ^ d := by
    rw [← hm]; exact mul_le_mul_of_nonneg_right hle (by positivity)
  exact_mod_cast le_trans (Int.le_floor.mpr h1) (rhe_ge_floor _)

theorem roundTo_le (x p : ℚ) (d : ℤ) (m : ℤ) (hm : p * 10 ^ d = (m : ℚ))
    (hle : x ≤ p) : roundTo x d ≤ p := by
  unfold roundTo
  rw [div_le_iff (by positivity : (0:ℚ) < 10 ^ d), hm]
  have h1 : x * 10 ^ d ≤ (m : ℚ) := by
    rw [← hm]; exact mul_le_mul_of_nonneg_right hle (by positivity)
  exact_mod_cast le_trans (rhe_le_ceil _) (Int.ceil_le.mpr h1)

theorem roundTo_fixed (p : ℚ) (d : ℤ) (m : ℤ) (hm : p * 10 ^ d = (m : ℚ)) :
    roundTo p d = p := by
  unfold roundTo
  rw [hm, rhe_intCast, div_eq_iff (by positivity : (10:ℚ) ^ d ≠ 0)]
  exact hm.symm

theorem grid_up (p : ℚ) (d d' : ℤ) (m : ℤ) (hm : p * 10 ^ d = (m : ℚ))
    (h : d ≤ d') : ∃ m' : ℤ, p * 10 ^ d' = (m' : ℚ) := by
  refine ⟨m * 10 ^ (d' - d).toNat, ?_⟩
  have hsplit : (10:ℚ) ^ d' = 10 ^ d * 10 ^ (((d' - d).toNat : ℤ)) := by
    rw [← zpow_add₀ (by norm_num : (10:ℚ) ≠ 0)]
    congr 1
    omega
  rw [hsplit, ← mul_assoc, hm, zpow_natCast]
  push_cast
  ring

theorem exchFees_nonneg (e p : Str) (inv : Bool) (f : ℚ)
    (h : exchFees e p inv = .ok f) : 0 ≤ f := by
  unfold exchFees exchFeesCore at h
  split_ifs at h
  · split at h
    · exact absurd h (by simp)
    · simp only [Except.ok.injEq] at h
      subst h
      split_ifs <;> norm_num
  · simp only [Except.ok.injEq] at h
    subst h
    norm_num
  · split at h
    · exact absurd h (by simp)
    · simp only [Except.ok.injEq] at h
      subst h
      split_ifs <;> norm_num
  · simp only [Except.ok.injEq] at h
    subst h
    norm_num
  · simp only [Except.ok.injEq] at h
    subst h
    norm_num

theorem feeAdjEntry_price (pair : Str) (d : ℤ) (sign add_fee : ℚ) (sideStr : Str)
    (e : OrderBookEntry) (f : ℚ) :
    (feeAdjEntry pair d sign add_fee sideStr e f).price =
      roundTo (e.price * (1 + sign * (f + add_fee)))
        (round_digits d 0 (e.price * (1 + sign * (f + add_fee)))) := rfl

theorem le_round_digits_left (a b : ℤ) (v : ℚ) : a ≤ round_digits a b v := by
  simp only [round_digits]
  exact le_trans (le_max_left a b) (le_max_right _ _)

theorem feesMap_mono_asks (pr : Str) (d : ℤ) (af : ℚ) (haf : 0 ≤ af)
    (sideStr : Str) (inv : Bool) :
    ∀ (es res : List OrderBookEntry),
      (∀ e ∈ es, 0 ≤ e.price) →
      (∀ e ∈ es, ∃ m : ℤ, e.price * 10 ^ d = (m : ℚ)) →
      feesMap pr d 1 af sideStr inv es = .ok res →
      List.Forall₂ (fun e r => e.price ≤ r.price ∧
        ∀ φ, exchFees e.exch pr inv = .ok φ → φ + af = 0 → r.price = e.price)
        es res := by
  intro es
  induction es with
  | nil =>
    intro res _ _ h
    rw [feesMap] at h
    simp only [Except.ok.injEq] at h
    subst h
    exact List.Forall₂.nil
  | cons e es ih =>
    intro res hp hg h
    rw [feesMap] at h
    cases hfee : exchFees e.exch pr inv with
    | error u => rw [hfee] at h; exact absurd h (by simp)
    | ok f =>
      rw [hfee] at h
      cases hrest : feesMap pr d 1 af sideStr inv es with
      | error u => rw [hrest] at h; exact absurd h (by simp)
      | ok rest =>
        rw [hrest] at h
        simp only [Except.ok.injEq] at h
        subst h
        have hf0 : 0 ≤ f := exchFees_nonneg _ _ _ _ hfee
        have hpe : 0 ≤ e.price := hp e (List.mem_cons_self e es)
        obtain ⟨m, hm⟩ := hg e (List.mem_cons_self e es)
        refine List.Forall₂.cons ⟨?_, ?_⟩
          (ih rest (fun x hx => hp x (List.mem_cons_of_mem _ hx))
            (fun x hx => hg x (List.mem_cons_of_mem _ hx)) hrest)
        · rw [feeAdjEntry_price]
          have hple : e.price ≤ e.price * (1 + 1 * (f + af)) := by nlinarith
          obtain ⟨m', hm'⟩ := grid_up e.price d
            (round_digits d 0 (e.price * (1 + 1 * (f + af)))) m hm
            (le_round_digits_left d 0 _)
          exact roundTo_ge _ _ _ m' hm' hple
        · intro φ hφ hz
          rw [hfee] at hφ
          simp only [Except.ok.injEq] at hφ
          subst hφ
          rw [feeAdjEntry_price]
          have hpr : e.price * (1 + 1 * (f + af)) = e.price := by
            rw [one_mul, hz, add_zero, mul_one]
          rw [hpr]
          obtain ⟨m', hm'⟩ := grid_up e.price d (round_digits d 0 e.price) m hm
            (le_round_digits_left d 0 _)
          exact roundTo_fixed _ _ m' hm'

theorem feesMap_mono_bids (pr : Str) (d : ℤ) (af : ℚ) (haf : 0 ≤ af)
    (sideStr : Str) (inv : Bool) :
    ∀ (es res : List OrderBookEntry),
      (∀ e ∈ es, 0 ≤ e.price) →
      (∀ e ∈ es, ∃ m : ℤ, e.price * 10 ^ d = (m : ℚ)) →
      feesMap pr d (-1) af sideStr inv es = .ok res →
      List.Forall₂ (fun e r => r.price ≤ e.price ∧
        ∀ φ, exchFees e.exch pr inv = .ok φ → φ + af = 0 → r.price = e.price)
        es res := by
  intro es
  induction es with
  | nil =>
    intro res _ _ h
    rw [feesMap] at h
    simp only [Except.ok.injEq] at h
    subst h
    exact List.Forall₂.nil
  | cons e es ih =>
    intro res hp hg h
    rw [feesMap] at h
    cases hfee : exchFees e.exch pr inv with
    | error u => rw [hfee] at h; exact absurd h (by simp)
    | ok f =>
      rw [hfee] at h
      cases hrest : feesMap pr d (-1) af sideStr inv es with
      | error u => rw [hrest] at h; exact absurd h (by simp)
      | ok rest =>
        rw [hrest] at h
        simp only [Except.ok.injEq] at h
        subst h
        have hf0 : 0 ≤ f := exchFees_nonneg _ _ _ _ hfee
        have hpe : 0 ≤ e.price := hp e (List.mem_cons_self e es)
        obtain ⟨m, hm⟩ := hg e (List.mem_cons_self e es)
        refine List.Forall₂.cons ⟨?_, ?_⟩
          (ih rest (fun x hx => hp x (List.mem_cons_of_mem _ hx))
            (fun x hx => hg x (List.mem_cons_of_mem _ hx)) hrest)
        · rw [feeAdjEntry_price]
          have hple : e.price * (1 + (-1) * (f + af)) ≤ e.price := by nlinarith
          obtain ⟨m', hm'⟩ := grid_up e.price d
            (round_digits d 0 (e.price * (1 + (-1) * (f + af)))) m hm
            (le_round_digits_left d 0 _)
          exact roundTo_le _ _ _ m' hm' hple
        · intro φ hφ hz
          rw [hfee] at hφ
          simp only [Except.ok.injEq] at hφ
          subst hφ
          rw [feeAdjEntry_price]
          have hpr : e.price * (1 + (-1) * (f + af)) = e.price := by
            rw [hz]; ring
          rw [hpr]
          obtain ⟨m', hm'⟩ := grid_up e.price d (round_digits d 0 e.price) m hm
            (le_round_digits_left d 0 _)
          exact roundTo_fixed _ _ m' hm'

/-- C3 (amended): with non-negative extra fee, on a book whose level prices
are non-negative and lie on the `10^-lenPrcDecimals` grid (the construction
invariant: `lenPrcDecimals` is the maximum observed decimal places), every
ask price after fees is ≥ the raw ask price and every bid price after fees
is ≤ the raw bid price, and a level whose total fee (catalog fee plus
`add_fee`) is zero keeps its price exactly.  The converse of the equality
direction is false: rounding can absorb a small non-zero fee (see the
counterexample). -/
theorem sideAfterFees_monotone (b : OrderBookItem) (add_fee : ℚ)
    (haf : 0 ≤ add_fee)
    (hpa : ∀ e ∈ b.asks, 0 ≤ e.price) (hpb : ∀ e ∈ b.bids, 0 ≤ e.price)
    (hga : ∀ e ∈ b.asks,
      ∃ m : ℤ, e.price * 10 ^ (((lenPrcDecimalsAccess b).1 : ℤ)) = (m : ℚ))
    (hgb : ∀ e ∈ b.bids,
      ∃ m : ℤ, e.price * 10 ^ (((lenPrcDecimalsAccess b).1 : ℤ)) = (m : ℚ)) :
    (∀ res, asksAfterFees b add_fee false = .ok res →
      List.Forall₂ (fun e r => e.price ≤ r.price ∧
        ∀ φ, exchFees e.exch b.pair false = .ok φ → φ + add_fee = 0 →
          r.price = e.price) b.asks res) ∧
    (∀ res, bidsAfterFees b add_fee false = .ok res →
      List.Forall₂ (fun e r => r.price ≤ e.price ∧
        ∀ φ, exchFees e.exch b.pair false = .ok φ → φ + add_fee = 0 →
          r.price = e.price) b.bids res) := by
  constructor
  · intro res h
    apply feesMap_mono_asks b.pair (((lenPrcDecimalsAccess b).1 : ℤ)) add_fee haf
      sAsks false b.asks res hpa hga
    unfold asksAfterFees sideAfterFees at h
    simpa [if_neg (by decide : ¬(sAsks = sBids))] using h
  · intro res h
    apply feesMap_mono_bids b.pair (((lenPrcDecimalsAccess b).1 : ℤ)) add_fee haf
      sBids false b.bids res hpb hgb
    unfold bidsAfterFees sideAfterFees at h
    simpa using h

theorem bkSample_lenPrc : (lenPrcDecimalsAccess bkSample).1 = 1 := by
  rw [lenPrc_access_none bkSample rfl]
  show max (getDecimals bkSample.bids true) (getDecimals bkSample.asks true) = 1
  have d10 : decObserved (10 : ℚ) = 1 := by norm_num [decObserved, decSearch]
  have g10 : getDecimals [okxE 10 1] true = 1 := by simp [getDecimals, okxE, d10]
  rw [show bkSample.bids = [okxE 10 1] from rfl,
    show bkSample.asks = [okxE 10 1] from rfl, g10]
  decide

/-- C3 (counterexample): on a book with ask price 10 at the okx venue (fee
0.0004) the fee-adjusted ask price rounds back to exactly 10 — prices equal
although the fee applied to the level is non-zero, refuting the "equality
iff fee = 0" direction. -/
theorem sideAfterFees_eq_price_with_nonzero_fee :
    bkSample.asks = [okxE 10 1] ∧
    asksAfterFees bkSample 0 false = .ok [okxE 10 1] ∧
    exchFees (okxE 10 1).exch bkSample.pair false = .ok (1/2500) ∧
    (1/2500 : ℚ) ≠ 0 := by
  refine ⟨rfl, ?_, rfl, by norm_num⟩
  have hadj : feeAdjEntry ("ETH-USDT".toList) 1 1 0 sAsks (okxE 10 1) (1/2500)
      = okxE 10 1 := by
    have h0 : feeAdjEntry ("ETH-USDT".toList) 1 1 0 sAsks (okxE 10 1) (1/2500) =
        ⟨roundTo ((10:ℚ) * (1 + 1 * (1/2500 + 0)))
          (round_digits 1 0 ((10:ℚ) * (1 + 1 * (1/2500 + 0)))), 1, sOkx, []⟩ := rfl
    have harith : ((10:ℚ) * (1 + 1 * (1/2500 + 0))) = 2501/250 := by norm_num
    have hrd : round_digits 1 0 (2501/250 : ℚ) = 2 := by
      simp only [round_digits]
      norm_num
    have hrt : roundTo (2501/250 : ℚ) 2 = 10 := by
      rw [roundTo]
      norm_num [roundHalfEven]
    rw [h0, harith, hrd, hrt]
    rfl
  unfold asksAfterFees sideAfterFees
  simp only [if_neg (by decide : ¬(sAsks = sBids)), bkSample_lenPrc, Nat.cast_one]
  rw [show bkSample.pair = ("ETH-USDT".toList) from rfl,
    show bkSample.asks = [okxE 10 1] from rfl]
  rw [feesMap,
    show exchFees (okxE 10 1).exch ("ETH-USDT".toList) false
      = Except.ok (1/2500 : ℚ) from rfl, feesMap]
  simp only [one_div] at hadj
  simp
  exact hadj

/-- Witness for C3 on a book whose hypotheses (non-negative grid prices,
zero extra fee) hold. -/
theorem sideAfterFees_monotone_witness :
    (∀ res, asksAfterFees bkSample 0 false = .ok res →
      List.Forall₂ (fun e r => e.price ≤ r.price ∧
        ∀ φ, exchFees e.exch bkSample.pair false = .ok φ → φ + 0 = 0 →
          r.price = e.price) bkSample.asks res) ∧
    (∀ res, bidsAfterFees bkSample 0 false = .ok res →
      List.Forall₂ (fun e r => r.price ≤ e.price ∧
        ∀ φ, exchFees e.exch bkSample.pair false = .ok φ → φ + 0 = 0 →
          r.price = e.price) bkSample.bids res) := by
  have hp : ∀ e ∈ [okxE 10 1], (0:ℚ) ≤ e.price := by
    intro e he
    rw [List.mem_singleton] at he
    subst he
    norm_num [okxE]
  have hg : ∀ e ∈ [okxE 10 1],
      ∃ m : ℤ, e.price * 10 ^ (((lenPrcDecimalsAccess bkSample).1 : ℤ)) = (m : ℚ) := by
    intro e he
    rw [List.mem_singleton] at he
    subst he
    refine ⟨100, ?_⟩
    rw [bkSample_lenPrc]
    norm_num [okxE]
  exact sideAfterFees_monotone bkSample 0 le_rfl hp hp hg hg

/-! ## C2 — cursor resumability of the base-quantity WAP traversal -/

theorem wapWalk_cons_full (l : OrderBookEntry) (ls : List OrderBookEntry)
    (q g : ℚ) (h : l.size - g ≤ q) :
    wapWalk (l :: ls) q g =
      (⟨l.price, l.size - g, l.exch, l.price, (l.size - g) * l.price⟩ ::
        (wapWalk ls (q - (l.size - g)) 0).1,
       (wapWalk ls (q - (l.size - g)) 0).2.1 + 1,
       (wapWalk ls (q - (l.size - g)) 0).2.2) := by
  simp only [wapWalk]
  rw [if_pos h]

theorem wapWalk_cons_part (l : OrderBookEntry) (ls : List OrderBookEntry)
    (q g : ℚ) (h : ¬(l.size - g ≤ q)) :
    wapWalk (l :: ls) q g =
      ([⟨l.price, q, l.exch, l.price, q * l.price⟩], 0, g + q) := by
  simp only [wapWalk]
  rw [if_neg h]

theorem wapWalk_cons_head (l : OrderBookEntry) (ls : List OrderBookEntry)
    (q g : ℚ) :
    ∃ e rest, (wapWalk (l :: ls) q g).1 = e :: rest ∧
      e.price = l.price ∧ e.exch = l.exch := by
  by_cases h : l.size - g ≤ q
  · rw [wapWalk_cons_full l ls q g h]
    exact ⟨_, _, rfl, rfl, rfl⟩
  · rw [wapWalk_cons_part l ls q g h]
    exact ⟨_, _, rfl, rfl, rfl⟩

theorem sumSizes_cons (l : OrderBookEntry) (ls : List OrderBookEntry) :
    sumSizes (l :: ls) = l.size + sumSizes ls := by
  simp [sumSizes]

theorem wapWalk_split (L : List OrderBookEntry) (q1 q2 : ℚ)
    (hpos : ∀ e ∈ L, 0 < e.size) (h1 : 0 < q1) (h2 : 0 < q2)
    (hd : q1 + q2 ≤ sumSizes L) :
    ∃ A e1 e2 B,
      (wapWalk L q1 0).1 = A ++ [e1] ∧
      (wapWalk (L.drop (wapWalk L q1 0).2.1) q2 (wapWalk L q1 0).2.2).1
        = e2 :: B ∧
      (wapWalk L (q1 + q2) 0).1 =
        A ++ (⟨e2.price, e1.size + e2.size, e2.exch, e2.wap, e1.amt + e2.amt⟩ :: B) ∧
      e1.price = e2.price ∧ e1.exch = e2.exch := by
  induction L generalizing q1 with
  | nil =>
    exfalso
    simp [sumSizes] at hd
    linarith
  | cons l ls ih =>
    have hls : 0 < l.size := hpos l (List.mem_cons_self _ _)
    have hpos' : ∀ e ∈ ls, 0 < e.size := fun e he => hpos e (List.mem_cons_of_mem _ he)
    have hsum : sumSizes (l :: ls) = l.size + sumSizes ls := sumSizes_cons l ls
    by_cases hc : l.size - 0 ≤ q1
    · -- call 1 consumes the whole first level
      have hc' : l.size - 0 ≤ q1 + q2 := by linarith
      rw [wapWalk_cons_full l ls q1 0 hc, wapWalk_cons_full l ls (q1 + q2) 0 hc']
      dsimp only
      by_cases hq1 : l.size - 0 < q1
      · -- strictly more than the first level is requested: use the IH on `ls`
        have h1' : 0 < q1 - (l.size - 0) := by linarith
        have hd' : q1 - (l.size - 0) + q2 ≤ sumSizes ls := by
          rw [hsum] at hd; linarith
        obtain ⟨A, e1, e2, B, hA1, hA2, hA3, hpq, hex⟩ :=
          ih (q1 - (l.size - 0)) hpos' h1' hd'
        refine ⟨⟨l.price, l.size - 0, l.exch, l.price, (l.size - 0) * l.price⟩ :: A,
          e1, e2, B, ?_, ?_, ?_, hpq, hex⟩
        · rw [List.cons_append, hA1]
        · rw [List.drop_succ_cons]
          exact hA2
        · have harg : q1 + q2 - (l.size - 0) = q1 - (l.size - 0) + q2 := by ring
          rw [List.cons_append, harg, hA3]
      · -- exact edge: q1 equals the first level's effective size
        have hq1e : q1 = l.size - 0 := le_antisymm (not_lt.mp hq1) hc
        have hq2sum : q2 ≤ sumSizes ls := by rw [hsum] at hd; linarith
        cases ls with
        | nil =>
          exfalso
          simp [sumSizes] at hq2sum
          linarith
        | cons m ms =>
          have hm : 0 < m.size := hpos' m (List.mem_cons_self _ _)
          have hzero : ¬(m.size - 0 ≤ (0:ℚ)) := by
            simp only [sub_zero, not_le]
            exact hm
          have hq10 : q1 - (l.size - 0) = 0 := by rw [hq1e]; ring
          have harg : q1 + q2 - (l.size - 0) = q2 := by rw [hq1e]; ring
          rw [hq10, harg, wapWalk_cons_part m ms 0 0 hzero]
          dsimp only
          rw [List.drop_succ_cons, List.drop_zero, add_zero]
          obtain ⟨e2, rest, hw, hwp, hwe⟩ := wapWalk_cons_head m ms q2 0
          refine ⟨[⟨l.price, l.size - 0, l.exch, l.price, (l.size - 0) * l.price⟩],
            ⟨m.price, 0, m.exch, m.price, 0 * m.price⟩, e2, rest, rfl, hw, ?_,
            hwp.symm, hwe.symm⟩
          rw [hw]
          simp only [List.cons_append, List.nil_append, zero_add, zero_mul]
    · -- call 1 stops inside the first level
      rw [wapWalk_cons_part l ls q1 0 hc]
      dsimp only
      rw [List.drop_zero, zero_add]
      by_cases hb : l.size - q1 ≤ q2
      · -- call 2 finishes the first level
        have hs1 : l.size - 0 ≤ q1 + q2 := by
          simp only [sub_zero]
          have := sub_le_iff_le_add'.mp hb
          linarith
        rw [wapWalk_cons_full l ls q2 q1 hb, wapWalk_cons_full l ls (q1 + q2) 0 hs1]
        dsimp only
        have harg : q1 + q2 - (l.size - 0) = q2 - (l.size - q1) := by ring
        rw [harg]
        refine ⟨[], ⟨l.price, q1, l.exch, l.price, q1 * l.price⟩,
          ⟨l.price, l.size - q1, l.exch, l.price, (l.size - q1) * l.price⟩,
          (wapWalk ls (q2 - (l.size - q1)) 0).1, rfl, rfl, ?_, rfl, rfl⟩
        simp only [List.nil_append, List.cons.injEq, WapLevelsEntry.mk.injEq,
          true_and, and_true]
        constructor <;> ring
      · -- call 2 also stops inside the first level
        have hs2 : ¬(l.size - 0 ≤ q1 + q2) := by
          simp only [sub_zero, not_le] at hb ⊢
          linarith
        rw [wapWalk_cons_part l ls q2 q1 hb, wapWalk_cons_part l ls (q1 + q2) 0 hs2]
        refine ⟨[], ⟨l.price, q1, l.exch, l.price, q1 * l.price⟩,
          ⟨l.price, q2, l.exch, l.price, q2 * l.price⟩, [], rfl, rfl, ?_, rfl, rfl⟩
        simp only [List.nil_append, List.cons.injEq, WapLevelsEntry.mk.injEq,
          true_and, and_true]
        ring

/-- C2: on a book with fresh cursor state for the chosen side (as a freshly
constructed book has) and strictly positive level sizes, for all positive
quantities `q1`, `q2` whose sum is within the side's depth, the two
sequential `wap_base_levels` calls produce exactly the single-call
`wap_base_levels (q1 + q2)` sequence split at the cumulative boundary `q1`:
the single-call sequence is `A ++ merged :: B` where the first call returns
`A ++ [e1]`, the second returns `e2 :: B`, and `merged` is the boundary
level with size `e1.size + e2.size` and amount `e1.amt + e2.amt` (the two
boundary entries agree with it on price, venue and wap). -/
theorem wap_base_levels_resumable (b : OrderBookItem) (side : Str) (q1 q2 : ℚ)
    (hside : side = sAsks ∨ side = sBids)
    (hfresh : stateOf b side = ⟨0, 0⟩)
    (hpos : ∀ e ∈ levelsOf b side, 0 < e.size)
    (h1 : 0 < q1) (h2 : 0 < q2)
    (hd : q1 + q2 ≤ sumSizes (levelsOf b side)) :
    ∃ A e1 e2 B,
      (wap_base_levels b q1 side).1 = A ++ [e1] ∧
      (wap_base_levels ((wap_base_levels b q1 side).2) q2 side).1 = e2 :: B ∧
      (wap_base_levels b (q1 + q2) side).1 =
        A ++ (⟨e2.price, e1.size + e2.size, e2.exch, e2.wap, e1.amt + e2.amt⟩ :: B) ∧
      e1.price = e2.price ∧ e1.exch = e2.exch := by
  rcases hside with hs | hs <;> subst hs
  · have hne : ¬(sAsks = sBids) := by decide
    simp only [stateOf, if_neg hne] at hfresh
    simp only [levelsOf, if_neg hne] at hpos hd
    simp only [wap_base_levels, stateOf, levelsOf, if_neg hne, hfresh]
    simp only [List.drop_zero, zero_add]
    exact wapWalk_split b.asks q1 q2 hpos h1 h2 hd
  · simp only [stateOf, if_pos rfl] at hfresh
    simp only [levelsOf, if_pos rfl] at hpos hd
    simp only [wap_base_levels, stateOf, levelsOf, if_pos rfl, hfresh]
    simp only [List.drop_zero, zero_add]
    exact wapWalk_split b.bids q1 q2 hpos h1 h2 hd

def bkC2 : OrderBookItem :=
  ⟨sOkx, "ETH-USDT".toList, 1, [okxE 9 5, okxE 8 5], [okxE 10 5, okxE 11 5],
    freshLevelsState, freshLevelsState, none, none⟩

/-- Witness for C2: asks `[(10, 5), (11, 5)]`, `q1 = 3`, `q2 = 4`. -/
theorem wap_base_levels_resumable_witness :
    ∃ A e1 e2 B,
      (wap_base_levels bkC2 3 sAsks).1 = A ++ [e1] ∧
      (wap_base_levels ((wap_base_levels bkC2 3 sAsks).2) 4 sAsks).1 = e2 :: B ∧
      (wap_base_levels bkC2 (3 + 4) sAsks).1 =
        A ++ (⟨e2.price, e1.size + e2.size, e2.exch, e2.wap, e1.amt + e2.amt⟩ :: B) ∧
      e1.price = e2.price ∧ e1.exch = e2.exch := by
  apply wap_base_levels_resumable bkC2 sAsks 3 4 (Or.inl rfl) rfl
  · intro e he
    rw [show levelsOf bkC2 sAsks = [okxE 10 5, okxE 11 5] from rfl] at he
    rcases List.mem_cons.mp he with h | h
    · rw [h]; norm_num [okxE]
    · rcases List.mem_cons.mp h with h2 | h2
      · rw [h2]; norm_num [okxE]
      · exact absurd h2 (List.not_mem_nil e)
  · norm_num
  · norm_num
  · show (3:ℚ) + 4 ≤ sumSizes (levelsOf bkC2 sAsks)
    rw [show levelsOf bkC2 sAsks = [okxE 10 5, okxE 11 5] from rfl]
    rw [sumSizes_cons, sumSizes_cons, show sumSizes [] = 0 from rfl]
    norm_num [okxE]
